import Mathlib

/-!
Verification of the chunked file-transfer protocol implemented by the two
client/server pairs in this repository (`first_task/` and
`The-Multi-Client-Mayhem/`).  Byte strings are modelled as `List Nat`
(each entry a byte value `< 256` where that matters); the per-chunk and
whole-file digests (md5 / sha256 in the source) are modelled as an
abstract `Bytes → Nat` function, assumed collision-free only where a
theorem needs it.  Each definition is a direct translation of the Python
code it names in its doc comment.
-/

abbrev Bytes := List Nat

/-! ## Framing layer (first_task client.py `receive_response`, server.py `receive_request`) -/

/-- Models Python `int.from_bytes(bs, byteorder='big')`. -/
def fromBytesBE (bs : Bytes) : Nat :=
  bs.foldl (fun a b => a * 256 + b) 0

inductive FrameErr
  | connectionClosed
deriving DecidableEq, Repr

/-- Models the payload-accumulation loop shared by
`first_task/client.py:90-95` and `first_task/server.py:133-138`:
`while bytes_received < msg_len: chunk = recv(min(msg_len - bytes_received, 4096));
if not chunk: raise ConnectionError; ...`.  The stream `s` is the sequence of
bytes the peer sends before closing; `recv k` returns the next `min k |s|`
bytes, so an empty result means the stream has ended. -/
def recvLoop (need : Nat) (s : Bytes) : Except FrameErr Bytes :=
  if need = 0 then .ok []
  else if hs : s = [] then .error .connectionClosed
  else
    let chunk := s.take (min need 4096)
    match recvLoop (need - chunk.length) (s.drop chunk.length) with
    | .ok rest => .ok (chunk ++ rest)
    | .error e => .error e
termination_by need
decreasing_by
  simp only [List.length_take]
  have h1 : 0 < s.length := List.length_pos.mpr hs
  omega

/-- Models `first_task/client.py:74-97` (`receive_response`) at the framing
level: `msg_len_bytes = recv(4); if not msg_len_bytes: raise ConnectionError;
msg_len = int.from_bytes(msg_len_bytes, 'big')`, then the `recvLoop` above,
returning the raw frame bytes (the JSON parse sits above this layer). -/
def receiveResponseClient (s : Bytes) : Except FrameErr Bytes :=
  let msgLenBytes := s.take 4
  if msgLenBytes = [] then .error .connectionClosed
  else recvLoop (fromBytesBE msgLenBytes) (s.drop 4)

/-- Models `first_task/server.py:117-140` (`receive_request`) at the framing
level: identical to the client variant except that the emptiness check on
`recv(4)` is absent, so a closed stream yields `int.from_bytes(b'') = 0`
and an empty frame instead of an error. -/
def receiveRequestServer (s : Bytes) : Except FrameErr Bytes :=
  recvLoop (fromBytesBE (s.take 4)) (s.drop 4)

/-! ## Sender / splitter (first_task server.py `split_file`,
Multi-Client-Mayhem server.py:68-74) -/

/-- Models `first_task/server.py:82-103` (`split_file`: repeated
`f.read(chunk_size)` until empty) and equivalently the slicing loop
`for i in range(0, len(file_data), CHUNK_SIZE): chunks.append(file_data[i:i+CHUNK_SIZE])`
of `The-Multi-Client-Mayhem/server.py:70-71`.  For `n = 0` the read loop
returns no chunks (`f.read(0)` is always empty). -/
def split_file (data : Bytes) (n : Nat) : List Bytes :=
  if n = 0 then []
  else if hd : data = [] then []
  else data.take n :: split_file (data.drop n) n
termination_by data.length
decreasing_by
  have h1 : 0 < data.length := List.length_pos.mpr hd
  simp only [List.length_drop]
  omega

/-- Sequence numbering of the chunk list, as done by `sequence_number += 1`
in `first_task/server.py:93-101` and `for i, chunk in enumerate(chunks)` in
`The-Multi-Client-Mayhem/server.py:80`. -/
def numberFrom : Nat → List Bytes → List (Nat × Bytes)
  | _, [] => []
  | i, c :: cs => (i, c) :: numberFrom (i + 1) cs

/-! ## Receiver / reassembler (Multi-Client-Mayhem client.py `upload_file`,
first_task client.py `upload_file` / `save_file`) -/

/-- One decoded chunk message `{sequence, data, chunk_checksum}`
(`The-Multi-Client-Mayhem/server.py:82-87`). -/
structure Chunk where
  sequence : Nat
  payload : Bytes
  chunkChecksum : Nat
deriving DecidableEq, Repr

/-- The application-level replies the Mayhem client sends after a chunk
(`The-Multi-Client-Mayhem/client.py:97,106,115,120`). -/
inductive ClientReply
  | ok
  | retransmit (seq : Nat)
  | retransmitLast
  | error
deriving DecidableEq, Repr

/-- The reassembly buffer: the Python dict `chunks: Dict[int, bytes]`
(`The-Multi-Client-Mayhem/client.py:69`) / `self.received_chunks`
(`first_task/client.py:32`), as an association list with unique keys. -/
abbrev Buffer := List (Nat × Bytes)

/-- Dict lookup `buf[k]` / `k in buf`. -/
def bufGet : Buffer → Nat → Option Bytes
  | [], _ => none
  | (k, v) :: rest, i => if k = i then some v else bufGet rest i

/-- Dict assignment `buf[k] = v` (overwrites an existing binding), as used
unconditionally by `first_task/client.py:204`. -/
def bufSet : Buffer → Nat → Bytes → Buffer
  | [], k, v => [(k, v)]
  | (k', v') :: rest, k, v =>
      if k' = k then (k, v) :: rest else (k', v') :: bufSet rest k v

/-- The Mayhem client's guarded store
`if sequence not in chunks: chunks[sequence] = data`
(`The-Multi-Client-Mayhem/client.py:101-102`). -/
def mayhemStore (buf : Buffer) (seq : Nat) (d : Bytes) : Buffer :=
  match bufGet buf seq with
  | some _ => buf
  | none => (seq, d) :: buf

/-- Processing of one decoded chunk message by the Mayhem client
(`The-Multi-Client-Mayhem/client.py:94-106`): recompute the md5 of the
payload, compare with the declared `chunk_checksum`; on mismatch send
`RETRANSMIT:<sequence>` and do not store; on match store (if absent) and
send `OK`.  The digest is abstracted as `digest : Bytes → Nat`. -/
def onChunk (digest : Bytes → Nat) (buf : Buffer) (msg : Chunk) :
    Buffer × ClientReply :=
  if digest msg.payload ≠ msg.chunkChecksum then
    (buf, .retransmit msg.sequence)
  else
    (mayhemStore buf msg.sequence msg.payload, .ok)

/-- Processing of one received frame by the Mayhem client: `none` models a
payload on which `json.loads` raises `JSONDecodeError`, answered with
`RETRANSMIT:LAST` and no state change
(`The-Multi-Client-Mayhem/client.py:113-116`). -/
def onFrame (digest : Bytes → Nat) (buf : Buffer) (f : Option Chunk) :
    Buffer × ClientReply :=
  match f with
  | none => (buf, .retransmitLast)
  | some msg => onChunk digest buf msg

/-- Storing a list of (sequence, payload) pairs one after the other with the
Mayhem client's guarded store. -/
def storeChunks : Buffer → List (Nat × Bytes) → Buffer
  | buf, [] => buf
  | buf, (s, d) :: rest => storeChunks (mayhemStore buf s d) rest

/-- The Mayhem client's reassembly
(`The-Multi-Client-Mayhem/client.py:127-130`):
`for i in range(num_chunks): if i in chunks: reassembled_data += chunks[i]`
— sequence numbers ascending, missing keys silently skipped. -/
def reassemble (buf : Buffer) (total : Nat) : Bytes :=
  (List.range total).foldl (fun acc i => acc ++ ((bufGet buf i).getD [])) []

/-- Insertion into a sorted list of keys (ascending). -/
def insertSortedNat (x : Nat) : List Nat → List Nat
  | [] => [x]
  | y :: ys => if x ≤ y then x :: y :: ys else y :: insertSortedNat x ys

/-- Insertion sort on a key list, modelling Python `sorted(keys)`. -/
def sortNat : List Nat → List Nat
  | [] => []
  | x :: xs => insertSortedNat x (sortNat xs)

/-- The first_task client's `save_file` (`first_task/client.py:253-266`):
`sorted_keys = sorted(received_chunks.keys())`, then write the chunks in
that key order. -/
def assembleSorted (buf : Buffer) : Bytes :=
  (sortNat (buf.map Prod.fst)).foldl (fun acc k => acc ++ ((bufGet buf k).getD [])) []

/-- Final verdicts the Mayhem client reports to the server
(`The-Multi-Client-Mayhem/client.py:148,151,154`). -/
inductive Verdict
  | success
  | checksumMismatch
  | error
deriving DecidableEq, Repr

/-- The Mayhem client's finalization after `TRANSFER_COMPLETE`
(`The-Multi-Client-Mayhem/client.py:126-151`): reassemble, recompute the
whole-file digest, compare with the server's declared checksum; on match
write the output file and send `SUCCESS`, on mismatch send
`CHECKSUM_MISMATCH` and write nothing.  The second component is the file
written to disk, if any. -/
def mayhemFinalize (digest : Bytes → Nat) (buf : Buffer) (total : Nat)
    (serverChecksum : Nat) : Verdict × Option Bytes :=
  let reassembled := reassemble buf total
  if digest reassembled = serverChecksum then (.success, some reassembled)
  else (.checksumMismatch, none)

/-- Outcomes of one first_task upload attempt. -/
inductive FTOutcome
  | accepted
  | retried
  | failed
deriving DecidableEq, Repr

/-- The first_task client's completeness check after the end marker
(`first_task/client.py:207-220`): if fewer than `total_chunks` sequence
numbers were received, retry the whole upload while the retry budget
lasts, else give up with failure; only a complete buffer proceeds to
saving/verification. -/
def firstTaskCompletionCheck (received total retryCount maxRetries : Nat) :
    FTOutcome :=
  if received ≠ total then
    if retryCount < maxRetries then .retried else .failed
  else .accepted

/-- The first_task client's verification step (`first_task/client.py:222-244`):
the received file is written out by `save_file` first, then its digest is
compared with the server's; a mismatch retries or fails but the file stays
written.  Second component: the file written to disk. -/
def firstTaskFinalize (digest : Bytes → Nat) (buf : Buffer)
    (serverChecksum : Nat) (retryCount maxRetries : Nat) :
    FTOutcome × Option Bytes :=
  let saved := assembleSorted buf
  if digest saved = serverChecksum then (.accepted, some saved)
  else if retryCount < maxRetries then (.retried, some saved)
  else (.failed, some saved)

/-- The first_task client's handling of one decoded chunk message
(`first_task/client.py:201-204`): no per-chunk digest exists in this
variant; the payload is stored unconditionally, overwriting any previous
binding for the same sequence number. -/
def firstTaskProcessChunk (buf : Buffer) (seq : Nat) (payload : Bytes) :
    Buffer :=
  bufSet buf seq payload

/-! ## Acknowledgement wire strings (Multi-Client-Mayhem server.py:118-123) -/

/-- Wire strings are modelled as `List Char` so every operation is a
structural recursion the kernel can evaluate. -/
abbrev Str := List Char

/-- Python `s.startswith(p)`. -/
def strStartsWith : Str → Str → Bool
  | _, [] => true
  | [], _ :: _ => false
  | a :: as, b :: bs => a = b && strStartsWith as bs

/-- Python `s.split(c)` for a single-character separator. -/
def strSplitOnCh (c : Char) : Str → List Str
  | [] => [[]]
  | x :: xs =>
    match strSplitOnCh c xs with
    | [] => if x = c then [[], []] else [[x]]
    | r :: rs => if x = c then [] :: r :: rs else (x :: r) :: rs

/-- Python `int(s)` restricted to the unsigned decimal strings that occur
on this wire: `none` models the `ValueError` raised on any other input
(in particular on `LAST` and on the empty string). -/
def strToNat? (s : Str) : Option Nat :=
  if s = [] then none
  else
    s.foldl
      (fun acc c =>
        match acc with
        | some a => if c.isDigit then some (a * 10 + (c.toNat - 48)) else none
        | none => none)
      (some 0)

/-- The ack string the Mayhem client sends for each reply
(`The-Multi-Client-Mayhem/client.py:97,106,115,120`). -/
def replyWire : ClientReply → Str
  | .ok => ("OK".toList)
  | .retransmit n => ("RETRANSMIT:".toList) ++ (Nat.repr n).toList
  | .retransmitLast => ("RETRANSMIT:LAST".toList)
  | .error => ("ERROR".toList)

/-- What the Mayhem server does with an ack: proceed, retransmit, or raise. -/
inductive ServerAckResult
  | proceed
  | retransmit (seq : Nat)
  | crash
deriving DecidableEq, Repr

/-- The Mayhem server's ack handling
(`The-Multi-Client-Mayhem/server.py:118-123`):
`if ack.startswith("RETRANSMIT"): seq_num = int(ack.split(":")[1])`.
`crash` models the uncaught `ValueError`/`IndexError` escaping to the
generic handler at `server.py:155`, which abandons the session. -/
def serverHandleAck (ack : Str) : ServerAckResult :=
  if strStartsWith ack ("RETRANSMIT".toList) then
    match strToNat? ((strSplitOnCh ':' ack).getD 1 []) with
    | some n => .retransmit n
    | none => .crash
  else .proceed

/-! ## Bounded loops (Multi-Client-Mayhem client.py:71, first_task client.py:213-220) -/

/-- One incoming wire message inside the Mayhem client's chunk loop: either
the `TRANSFER_COMPLETE` marker or a frame (whose JSON decode may fail). -/
inductive InMsg
  | transferComplete
  | frame (f : Option Chunk)

/-- The Mayhem client's chunk-receive loop
(`The-Multi-Client-Mayhem/client.py:71-121`):
`for _ in range(num_chunks * 2)`, breaking on the completion marker or on
`len(chunks) == num_chunks`.  Returns the final buffer and the number of
loop iterations executed; the caller passes `fuel = 2 * total` exactly as
`range(num_chunks * 2)` does. -/
def recvChunksLoop (digest : Bytes → Nat) (total : Nat) :
    Nat → List InMsg → Buffer → Buffer × Nat
  | 0, _, buf => (buf, 0)
  | _ + 1, [], buf => (buf, 0)
  | fuel + 1, m :: rest, buf =>
    match m with
    | .transferComplete => (buf, 1)
    | .frame f =>
      let step := onFrame digest buf f
      if step.1.length = total then (step.1, 1)
      else
        let next := recvChunksLoop digest total fuel rest step.1
        (next.1, next.2 + 1)

/-- The first_task client's retry-via-recursion
(`first_task/client.py:213-220` and `238-244`): an attempt that detects
missing chunks or a checksum mismatch re-runs `upload_file` while
`retry_count < max_retries`, else returns `False`.  `fails rc` abstracts
whether the attempt made with `retry_count = rc` fails; the recursion is
on the remaining budget `left = maxRetries - rc`.  Returns the final
boolean result and the number of attempts performed. -/
def uploadRetryAux (fails : Nat → Bool) (rc : Nat) : Nat → Bool × Nat
  | 0 => if fails rc then (false, 1) else (true, 1)
  | left + 1 =>
    if fails rc then
      let next := uploadRetryAux fails (rc + 1) left
      (next.1, next.2 + 1)
    else (true, 1)

/-- Entry point: `retry_count` starts at 0 (`first_task/client.py:33`). -/
def uploadRetry (fails : Nat → Bool) (maxRetries : Nat) : Bool × Nat :=
  uploadRetryAux fails 0 maxRetries

/-! ## latin1 transport of the upload body (first_task client.py:169,
server.py:197) -/

/-- Python `bytes.decode('latin1')`: each byte value becomes the Unicode
code point of the same value; modelled on code-point values, so decoding
is the identity on the byte list. -/
def latin1Decode (b : Bytes) : List Nat := b

/-- Python `str.encode('latin1')`: a code point below 256 becomes the byte
of the same value; any other code point raises `UnicodeEncodeError`,
modelled as `none`. -/
def latin1Encode (s : List Nat) : Option Bytes :=
  if ∀ c ∈ s, c < 256 then some s else none

/-- The bytes `first_task/server.py:197` writes to disk for an upload whose
`file_data` field was produced by `file_data.decode('latin1')` at
`first_task/client.py:169` (the JSON layer transports the string
unchanged). -/
def serverSavedUpload (fileData : Bytes) : Option Bytes :=
  latin1Encode (latin1Decode fileData)

/-! ## Concrete digest instances used to evaluate the theorems -/

/-- A trivial concrete digest (payload length), standing in for md5/sha256
when a theorem is instantiated on concrete data. -/
def lenDigest (b : Bytes) : Nat := b.length

/-- An injective concrete digest, standing in for sha256 in theorems whose
hypotheses assume the digest is collision-free. -/
def encDigest : Bytes → Nat
  | [] => 0
  | b :: bs => Nat.pair b (encDigest bs) + 1

/-! ## Helper lemmas about `split_file` -/

theorem split_file_nil (n : Nat) : split_file [] n = [] := by
  rw [split_file]
  simp

theorem split_file_zero (data : Bytes) : split_file data 0 = [] := by
  rw [split_file]
  simp

theorem split_file_cons (data : Bytes) (n : Nat) (hn : n ≠ 0) (hd : data ≠ []) :
    split_file data n = data.take n :: split_file (data.drop n) n := by
  rw [split_file]
  simp [hn, hd]

theorem split_file_eq_nil_iff (data : Bytes) (n : Nat) (hn : n ≠ 0) :
    split_file data n = [] ↔ data = [] := by
  constructor
  · intro h
    by_contra hd
    rw [split_file_cons data n hn hd] at h
    exact absurd h (List.cons_ne_nil _ _)
  · intro h
    subst h
    exact split_file_nil n

theorem split_file_induction (n : Nat) (hn : 0 < n) (P : Bytes → Prop)
    (hnil : P [])
    (hcons : ∀ data : Bytes, data ≠ [] → P (data.drop n) → P data) :
    ∀ data, P data := by
  have key : ∀ m (data : Bytes), data.length ≤ m → P data := by
    intro m
    induction m with
    | zero =>
      intro data h
      have hd : data = [] := List.length_eq_zero.mp (Nat.le_zero.mp h)
      subst hd
      exact hnil
    | succ m ih =>
      intro data h
      by_cases hd : data = []
      · subst hd
        exact hnil
      · refine hcons data hd (ih _ ?_)
        have h1 : 0 < data.length := List.length_pos.mpr hd
        simp only [List.length_drop]
        omega
  intro data
  exact key data.length data (le_refl _)

theorem split_file_flatten (data : Bytes) (n : Nat) (hn : 0 < n) :
    (split_file data n).flatten = data := by
  refine split_file_induction n hn (fun d => (split_file d n).flatten = d) ?_ ?_ data
  · simp [split_file_nil]
  · intro d hd ih
    rw [split_file_cons d n (by omega) hd]
    simp only [List.flatten_cons]
    rw [ih]
    exact List.take_append_drop n d

theorem ceilDiv_succ (len n : Nat) (hn : 0 < n) (hl : 0 < len) :
    (len + n - 1) / n = (len - n + n - 1) / n + 1 := by
  rcases Nat.le_total len n with h | h
  · have h1 : len - n = 0 := by omega
    rw [h1]
    have h2 : (0 + n - 1) / n = 0 := Nat.div_eq_of_lt (by omega)
    rw [h2]
    exact Nat.div_eq_of_lt_le (by omega) (by omega)
  · have h1 : len - n + n - 1 = len - 1 := by omega
    have h2 : len + n - 1 = (len - 1) + n := by omega
    rw [h1, h2, Nat.add_div_right _ hn]

theorem split_file_count (data : Bytes) (n : Nat) (hn : 0 < n) :
    (split_file data n).length = (data.length + n - 1) / n := by
  refine split_file_induction n hn
    (fun d => (split_file d n).length = (d.length + n - 1) / n) ?_ ?_ data
  · simp only [split_file_nil, List.length_nil]
    exact (Nat.div_eq_of_lt (by omega)).symm
  · intro d hd ih
    rw [split_file_cons d n (by omega) hd]
    simp only [List.length_cons, List.length_drop] at ih ⊢
    rw [ih]
    have hl : 0 < d.length := List.length_pos.mpr hd
    rw [ceilDiv_succ d.length n hn hl]

theorem split_file_mem (data : Bytes) (n : Nat) (hn : 0 < n) :
    ∀ c ∈ split_file data n, c.length ≤ n ∧ c ≠ [] := by
  refine split_file_induction n hn
    (fun d => ∀ c ∈ split_file d n, c.length ≤ n ∧ c ≠ []) ?_ ?_ data
  · intro c hc
    rw [split_file_nil] at hc
    cases hc
  · intro d hd ih c hc
    rw [split_file_cons d n (by omega) hd] at hc
    rcases List.mem_cons.mp hc with hc | hc
    · subst hc
      have hl : 0 < d.length := List.length_pos.mpr hd
      constructor
      · rw [List.length_take]
        omega
      · apply List.length_pos.mp
        rw [List.length_take]
        omega
    · exact ih c hc

theorem split_file_middle (data : Bytes) (n : Nat) (hn : 0 < n) :
    ∀ i, i + 1 < (split_file data n).length →
      ∃ c, (split_file data n).get? i = some c ∧ c.length = n := by
  refine split_file_induction n hn
    (fun d => ∀ i, i + 1 < (split_file d n).length →
      ∃ c, (split_file d n).get? i = some c ∧ c.length = n) ?_ ?_ data
  · intro i hi
    rw [split_file_nil] at hi
    simp at hi
  · intro d hd ih i hi
    rw [split_file_cons d n (by omega) hd] at hi ⊢
    cases i with
    | zero =>
      refine ⟨d.take n, rfl, ?_⟩
      simp only [List.length_cons] at hi
      have hrest : split_file (d.drop n) n ≠ [] := by
        intro h0
        rw [h0] at hi
        simp at hi
      have hdrop : d.drop n ≠ [] := by
        intro h0
        rw [h0, split_file_nil] at hrest
        exact hrest rfl
      have hlen : n < d.length := by
        have h1 := List.length_pos.mpr hdrop
        simp only [List.length_drop] at h1
        omega
      rw [List.length_take]
      omega
    | succ i =>
      simp only [List.length_cons] at hi
      simp only [List.get?_cons_succ]
      exact ih i (by omega)

theorem split_file_exact (data : Bytes) (n : Nat) (hn : 0 < n)
    (h : data.length = n) : split_file data n = [data] := by
  have hd : data ≠ [] := by
    apply List.length_pos.mp
    omega
  rw [split_file_cons data n (by omega) hd]
  have h1 : data.take n = data := List.take_of_length_le (by omega)
  have h2 : data.drop n = [] := List.drop_eq_nil_of_le (by omega)
  rw [h1, h2, split_file_nil]

/-! ## Helper lemmas about the reassembly buffer -/

theorem mayhemStore_present (buf : Buffer) (s : Nat) (d : Bytes) (v : Bytes)
    (h : bufGet buf s = some v) : mayhemStore buf s d = buf := by
  simp [mayhemStore, h]

theorem mayhemStore_absent (buf : Buffer) (s : Nat) (d : Bytes)
    (h : bufGet buf s = none) : mayhemStore buf s d = (s, d) :: buf := by
  simp [mayhemStore, h]

theorem bufGet_cons (k : Nat) (v : Bytes) (buf : Buffer) (i : Nat) :
    bufGet ((k, v) :: buf) i = if k = i then some v else bufGet buf i := by
  simp [bufGet]

theorem bufGet_mayhemStore_preserved (buf : Buffer) (s : Nat) (d : Bytes)
    (i : Nat) (v : Bytes) (h : bufGet buf i = some v) :
    bufGet (mayhemStore buf s d) i = some v := by
  unfold mayhemStore
  cases hs : bufGet buf s with
  | some w => exact h
  | none =>
    rw [bufGet_cons]
    by_cases he : s = i
    · subst he
      rw [h] at hs
      cases hs
    · rw [if_neg he]
      exact h

theorem bufGet_storeChunks_preserved (ps : List (Nat × Bytes)) :
    ∀ (buf : Buffer) (i : Nat) (v : Bytes), bufGet buf i = some v →
      bufGet (storeChunks buf ps) i = some v := by
  induction ps with
  | nil =>
    intro buf i v h
    exact h
  | cons p rest ih =>
    intro buf i v h
    obtain ⟨s, d⟩ := p
    exact ih _ i v (bufGet_mayhemStore_preserved buf s d i v h)

theorem bufGet_storeChunks_numberFrom (cs : List Bytes) :
    ∀ (k : Nat) (buf : Buffer), (∀ j, k ≤ j → bufGet buf j = none) →
      ∀ i, i < cs.length →
        bufGet (storeChunks buf (numberFrom k cs)) (k + i) = cs.get? i := by
  induction cs with
  | nil =>
    intro k buf hb i hi
    simp at hi
  | cons c cs ih =>
    intro k buf hb i hi
    simp only [numberFrom, storeChunks]
    have hk : bufGet buf k = none := hb k (le_refl k)
    rw [mayhemStore_absent buf k c hk]
    have hb1 : ∀ j, k + 1 ≤ j → bufGet ((k, c) :: buf) j = none := by
      intro j hj
      rw [bufGet_cons, if_neg (by omega)]
      exact hb j (by omega)
    cases i with
    | zero =>
      have hgot : bufGet ((k, c) :: buf) k = some c := by
        rw [bufGet_cons, if_pos rfl]
      simpa using bufGet_storeChunks_preserved _ _ _ _ hgot
    | succ i =>
      have hshift : k + (i + 1) = (k + 1) + i := by omega
      rw [hshift]
      simpa using ih (k + 1) ((k, c) :: buf) hb1 i (by simpa using hi)

theorem foldl_append_eq (f : Nat → Bytes) (l : List Nat) :
    ∀ acc : Bytes, l.foldl (fun a i => a ++ f i) acc = acc ++ (l.map f).flatten := by
  induction l with
  | nil =>
    intro acc
    simp
  | cons x xs ih =>
    intro acc
    simp [ih, List.append_assoc]

theorem reassemble_eq (buf : Buffer) (total : Nat) :
    reassemble buf total =
      ((List.range total).map (fun i => (bufGet buf i).getD [])).flatten := by
  unfold reassemble
  simpa using foldl_append_eq (fun i => (bufGet buf i).getD []) (List.range total) []

theorem map_range_get (cs : List Bytes) :
    (List.range cs.length).map (fun i => (cs.get? i).getD []) = cs := by
  induction cs with
  | nil => simp
  | cons c cs ih =>
    rw [List.length_cons, List.range_succ_eq_map]
    simp only [List.map_cons, List.map_map, List.get?_cons_zero, Option.getD_some]
    congr 1

theorem reassemble_storeChunks (cs : List Bytes) :
    reassemble (storeChunks [] (numberFrom 0 cs)) cs.length = cs.flatten := by
  rw [reassemble_eq]
  have hmap : (List.range cs.length).map
        (fun i => (bufGet (storeChunks [] (numberFrom 0 cs)) i).getD []) =
      (List.range cs.length).map (fun i => (cs.get? i).getD []) := by
    apply List.map_congr_left
    intro a ha
    have hlook := bufGet_storeChunks_numberFrom cs 0 [] (fun j _ => rfl) a
      (List.mem_range.mp ha)
    simpa using congrArg (fun o => Option.getD o []) hlook
  rw [hmap, map_range_get]

/-! ## Helper lemmas: length accounting for partial reassembly -/

theorem range_map_sum_le (f g : Nat → Nat) :
    ∀ n, (∀ i, i < n → f i ≤ g i) →
      ((List.range n).map f).sum ≤ ((List.range n).map g).sum := by
  intro n
  induction n with
  | zero =>
    intro _
    simp
  | succ n ih =>
    intro h
    rw [List.range_succ]
    simp only [List.map_append, List.sum_append, List.map_cons, List.map_nil,
      List.sum_cons, List.sum_nil]
    have h1 := ih (fun i hi => h i (by omega))
    have h2 := h n (by omega)
    omega

theorem range_map_sum_lt (f g : Nat → Nat) :
    ∀ n, (∀ i, i < n → f i ≤ g i) → ∀ k, k < n → f k < g k →
      ((List.range n).map f).sum < ((List.range n).map g).sum := by
  intro n
  induction n with
  | zero =>
    intro _ k hk _
    exact absurd hk (Nat.not_lt_zero k)
  | succ n ih =>
    intro h k hk hlt
    rw [List.range_succ]
    simp only [List.map_append, List.sum_append, List.map_cons, List.map_nil,
      List.sum_cons, List.sum_nil]
    by_cases hkn : k < n
    · have h1 := ih (fun i hi => h i (by omega)) k hkn hlt
      have h2 := h n (by omega)
      omega
    · have hkn' : k = n := by omega
      subst hkn'
      have h1 := range_map_sum_le f g k (fun i hi => h i (by omega))
      omega

theorem length_reassemble (buf : Buffer) (total : Nat) :
    (reassemble buf total).length =
      ((List.range total).map (fun i => ((bufGet buf i).getD []).length)).sum := by
  rw [reassemble_eq, List.length_flatten, List.map_map]
  rfl

theorem length_flatten_eq_sum_range (cs : List Bytes) :
    cs.flatten.length =
      ((List.range cs.length).map (fun i => ((cs.get? i).getD []).length)).sum := by
  conv_lhs => rw [← map_range_get cs]
  rw [List.length_flatten, List.map_map]
  rfl

/-! ## Helper lemmas: `bufSet` and duplicate handling -/

theorem bufSet_same (buf : Buffer) (k : Nat) (v : Bytes)
    (h : bufGet buf k = some v) : bufSet buf k v = buf := by
  induction buf with
  | nil => cases h
  | cons p rest ih =>
    obtain ⟨k', v'⟩ := p
    rw [bufGet_cons] at h
    simp only [bufSet]
    by_cases he : k' = k
    · subst he
      rw [if_pos rfl] at h
      rw [if_pos rfl]
      cases h
      rfl
    · rw [if_neg he] at h
      rw [if_neg he, ih h]

/-! ## Helper lemmas: `recvLoop` -/

theorem recvLoop_ok : ∀ need, ∀ s : Bytes, need ≤ s.length →
    recvLoop need s = .ok (s.take need) := by
  intro need
  induction need using Nat.strong_induction_on with
  | _ need ih =>
    intro s h
    rw [recvLoop]
    by_cases h0 : need = 0
    · subst h0
      simp
    · rw [if_neg h0]
      have hs : s ≠ [] := by
        intro he
        subst he
        simp at h
        omega
      rw [dif_neg hs]
      simp only
      have hslen : 0 < s.length := List.length_pos.mpr hs
      have hk : (s.take (min need 4096)).length = min need 4096 := by
        rw [List.length_take]
        omega
      rw [hk]
      have hrec := ih (need - min need 4096) (by omega) (s.drop (min need 4096))
        (by simp only [List.length_drop]; omega)
      rw [hrec]
      have : s.take (min need 4096) ++ (s.drop (min need 4096)).take (need - min need 4096) =
          s.take need := by
        rw [← List.take_add]
        congr 1
        omega
      exact congrArg Except.ok this

theorem recvLoop_closed : ∀ need, ∀ s : Bytes, s.length < need →
    recvLoop need s = .error .connectionClosed := by
  intro need
  induction need using Nat.strong_induction_on with
  | _ need ih =>
    intro s h
    rw [recvLoop]
    have h0 : need ≠ 0 := by omega
    rw [if_neg h0]
    by_cases hs : s = []
    · rw [dif_pos hs]
    · rw [dif_neg hs]
      simp only
      have hslen : 0 < s.length := List.length_pos.mpr hs
      have hk : (s.take (min need 4096)).length = min (min need 4096) s.length := by
        rw [List.length_take]
      rw [hk]
      have hrec := ih (need - min (min need 4096) s.length) (by omega)
        (s.drop (min (min need 4096) s.length))
        (by simp only [List.length_drop]; omega)
      rw [hrec]

/-! ## Helper lemmas: retry loop bounds -/

theorem uploadRetryAux_attempts (fails : Nat → Bool) :
    ∀ left rc, (uploadRetryAux fails rc left).2 ≤ left + 1 := by
  intro left
  induction left with
  | zero =>
    intro rc
    simp only [uploadRetryAux]
    by_cases h : fails rc
    · rw [if_pos h]
    · rw [if_neg h]
  | succ left ih =>
    intro rc
    simp only [uploadRetryAux]
    by_cases h : fails rc
    · rw [if_pos h]
      have := ih (rc + 1)
      simp only
      omega
    · rw [if_neg h]
      omega

theorem uploadRetryAux_all_fail (fails : Nat → Bool)
    (hall : ∀ i, fails i = true) :
    ∀ left rc, (uploadRetryAux fails rc left).1 = false := by
  intro left
  induction left with
  | zero =>
    intro rc
    simp only [uploadRetryAux]
    rw [if_pos (hall rc)]
  | succ left ih =>
    intro rc
    simp only [uploadRetryAux]
    rw [if_pos (hall rc)]
    exact ih (rc + 1)

theorem recvChunksLoop_bound (digest : Bytes → Nat) (total : Nat) :
    ∀ fuel (stream : List InMsg) (buf : Buffer),
      (recvChunksLoop digest total fuel stream buf).2 ≤ fuel := by
  intro fuel
  induction fuel with
  | zero =>
    intro stream buf
    simp [recvChunksLoop]
  | succ fuel ih =>
    intro stream buf
    cases stream with
    | nil => simp [recvChunksLoop]
    | cons m rest =>
      cases m with
      | transferComplete => simp [recvChunksLoop]
      | frame f =>
        simp only [recvChunksLoop]
        by_cases hc : (onFrame digest buf f).1.length = total
        · rw [if_pos hc]
          omega
        · rw [if_neg hc]
          have := ih rest (onFrame digest buf f).1
          simp only
          omega

/-! ## Helper lemmas: injectivity of the concrete digest -/

theorem encDigest_injective : ∀ a b : Bytes, encDigest a = encDigest b → a = b := by
  intro a
  induction a with
  | nil =>
    intro b h
    cases b with
    | nil => rfl
    | cons y ys =>
      simp only [encDigest] at h
      omega
  | cons x xs ih =>
    intro b h
    cases b with
    | nil =>
      simp only [encDigest] at h
      omega
    | cons y ys =>
      simp only [encDigest, Nat.add_right_cancel_iff] at h
      obtain ⟨h1, h2⟩ := Nat.pair_eq_pair.mp h
      rw [h1, ih ys h2]

/-! ## Claim theorems -/

/-- Claim C1: for every input byte buffer (including empty and unaligned
ones) and every chunk size n > 0, storing all chunks produced by
`split_file` (numbered from 0, none dropped or corrupted) and concatenating
the buffered payloads in ascending sequence order reconstructs the input
exactly. -/
theorem split_reassemble (data : Bytes) (n : Nat) (h : 0 < n) :
    reassemble (storeChunks [] (numberFrom 0 (split_file data n)))
      (split_file data n).length = data := by
  rw [reassemble_storeChunks, split_file_flatten data n h]

theorem split_reassemble_witness :
    reassemble (storeChunks [] (numberFrom 0 (split_file [10, 20, 30, 40, 50] 2)))
      (split_file [10, 20, 30, 40, 50] 2).length = [10, 20, 30, 40, 50] :=
  split_reassemble [10, 20, 30, 40, 50] 2 (by decide)

/-- Claim C2: for every buffer and chunk size n > 0, `split_file` emits
consecutive chunks each of at most n bytes and never empty; every chunk but
possibly the last has exactly n bytes; the number of chunks is
ceil(len/n) — in particular 0 for the empty buffer; and a buffer of exactly
n bytes yields exactly one chunk with no remainder chunk. -/
theorem split_file_shape (data : Bytes) (n : Nat) (h : 0 < n) :
    (∀ c ∈ split_file data n, c.length ≤ n ∧ c ≠ []) ∧
    (∀ i, i + 1 < (split_file data n).length →
      ∃ c, (split_file data n).get? i = some c ∧ c.length = n) ∧
    (split_file data n).length = (data.length + n - 1) / n ∧
    split_file [] n = [] ∧
    (data.length = n → split_file data n = [data]) :=
  ⟨split_file_mem data n h, split_file_middle data n h, split_file_count data n h,
   split_file_nil n, split_file_exact data n h⟩

theorem split_file_shape_witness :
    (split_file [10, 20, 30] 2).length = (3 + 2 - 1) / 2 := by
  have h := (split_file_shape [10, 20, 30] 2 (by decide)).2.2.1
  simpa using h

/-- Claim C3: the Mayhem receiver recomputes the digest of each incoming
chunk payload and compares it with the declared chunk digest; the payload
is stored only when they are equal, and on mismatch the receiver replies
RETRANSMIT:<sequence> with the buffer unchanged, so an unverified chunk is
never inserted into the buffer. -/
theorem onChunk_digest_check (digest : Bytes → Nat) (buf : Buffer) (msg : Chunk) :
    (digest msg.payload ≠ msg.chunkChecksum →
      onChunk digest buf msg = (buf, ClientReply.retransmit msg.sequence) ∧
      replyWire (ClientReply.retransmit msg.sequence) =
        ("RETRANSMIT:".toList) ++ (Nat.repr msg.sequence).toList) ∧
    (digest msg.payload = msg.chunkChecksum →
      onChunk digest buf msg =
        (mayhemStore buf msg.sequence msg.payload, ClientReply.ok)) := by
  constructor
  · intro h
    exact ⟨by simp [onChunk, h], rfl⟩
  · intro h
    simp [onChunk, h]

theorem onChunk_digest_check_witness :
    onChunk lenDigest [] ⟨0, [7, 7], 5⟩ = ([], ClientReply.retransmit 0) :=
  ((onChunk_digest_check lenDigest [] ⟨0, [7, 7], 5⟩).1 (by decide)).1

/-- Claim C4 counterexample: the first_task receiver
(`first_task/client.py:201-204`) stores every chunk message
unconditionally, so processing a message whose sequence number is already
present does change the buffer — the old payload is overwritten. -/
theorem firstTask_overwrites_duplicate :
    firstTaskProcessChunk [(0, [1])] 0 [2] ≠ [(0, [1])] := by decide

/-- Claim C4 (amended): in the Multi-Client-Mayhem receiver a chunk message
whose sequence number is already in the reassembly buffer leaves the buffer
unchanged; the duplicate is acknowledged OK whenever its digest verifies
(on mismatch a retransmission is requested instead); receiving the same
verified message twice changes nothing after the first processing, so the
reassembled output is unaffected.  The first_task receiver instead stores
unconditionally, so its buffer is unchanged only when the duplicate carries
the identical payload. -/
theorem duplicate_leaves_buffer (digest : Bytes → Nat) (buf : Buffer)
    (msg : Chunk) (v : Bytes) (hdup : bufGet buf msg.sequence = some v) :
    (onChunk digest buf msg).1 = buf ∧
    (digest msg.payload = msg.chunkChecksum →
      (onChunk digest buf msg).2 = ClientReply.ok) ∧
    (∀ total, reassemble (onChunk digest buf msg).1 total = reassemble buf total) ∧
    (∀ buf2 : Buffer, digest msg.payload = msg.chunkChecksum →
      (onChunk digest (onChunk digest buf2 msg).1 msg).1 =
        (onChunk digest buf2 msg).1) ∧
    firstTaskProcessChunk buf msg.sequence v = buf := by
  have hbuf : (onChunk digest buf msg).1 = buf := by
    by_cases hd : digest msg.payload = msg.chunkChecksum
    · simp [onChunk, hd, mayhemStore_present buf msg.sequence msg.payload v hdup]
    · simp [onChunk, hd]
  have hM : ∀ b : Buffer,
      mayhemStore (mayhemStore b msg.sequence msg.payload) msg.sequence msg.payload =
        mayhemStore b msg.sequence msg.payload := by
    intro b
    cases hb : bufGet b msg.sequence with
    | some w =>
      rw [mayhemStore_present b _ _ w hb, mayhemStore_present b _ _ w hb]
    | none =>
      rw [mayhemStore_absent b _ _ hb]
      apply mayhemStore_present
      rw [bufGet_cons, if_pos rfl]
  refine ⟨hbuf, ?_, ?_, ?_, ?_⟩
  · intro h
    simp [onChunk, h]
  · intro total
    rw [hbuf]
  · intro buf2 h
    simp [onChunk, h, hM]
  · exact bufSet_same buf msg.sequence v hdup

theorem duplicate_leaves_buffer_witness :
    (onChunk lenDigest [(3, [9])] ⟨3, [8], 1⟩).1 = [(3, [9])] :=
  (duplicate_leaves_buffer lenDigest [(3, [9])] ⟨3, [8], 1⟩ [9] (by decide)).1

/-- Claim C5: if the end-of-transmission marker arrives while some sequence
number below the declared total is absent from the reassembly buffer, the
session fails rather than silently reassembling and accepting a partial
file: the Mayhem client's finalization ends in CHECKSUM_MISMATCH (assuming
the whole-file digest is collision-free and every stored chunk is genuine),
and the first_task client's completeness check never proceeds to accept —
it retries while budget remains and fails outright once it is exhausted. -/
theorem end_marker_incomplete_fails (digest : Bytes → Nat)
    (hinj : ∀ a b, digest a = digest b → a = b)
    (cs : List Bytes) (hne : ∀ c ∈ cs, c ≠ [])
    (buf : Buffer)
    (hstored : ∀ i v, bufGet buf i = some v → cs.get? i = some v)
    (k : Nat) (hk : k < cs.length) (hmiss : bufGet buf k = none) :
    (mayhemFinalize digest buf cs.length (digest cs.flatten)).1 =
      Verdict.checksumMismatch ∧
    (∀ received total rc mr, received ≠ total →
      firstTaskCompletionCheck received total rc mr ≠ FTOutcome.accepted ∧
      (mr ≤ rc → firstTaskCompletionCheck received total rc mr = FTOutcome.failed)) := by
  constructor
  · have hlt : (reassemble buf cs.length).length < cs.flatten.length := by
      rw [length_reassemble, length_flatten_eq_sum_range]
      refine range_map_sum_lt _ _ cs.length ?_ k hk ?_
      · intro i hi
        cases hb : bufGet buf i with
        | none => simp
        | some v =>
          rw [hstored i v hb]
      · rw [hmiss]
        have hc := List.get?_eq_get hk
        rw [hc]
        have h0 : 0 < (cs.get ⟨k, hk⟩).length :=
          List.length_pos.mpr (hne _ (List.get_mem cs k hk))
        simpa using h0
    have hneq : reassemble buf cs.length ≠ cs.flatten := by
      intro he
      rw [he] at hlt
      omega
    have hdig : digest (reassemble buf cs.length) ≠ digest cs.flatten :=
      fun he => hneq (hinj _ _ he)
    simp [mayhemFinalize, hdig]
  · intro received total rc mr hrt
    unfold firstTaskCompletionCheck
    rw [if_pos hrt]
    constructor
    · by_cases h : rc < mr
      · rw [if_pos h]
        simp
      · rw [if_neg h]
        simp
    · intro hmr
      rw [if_neg (by omega)]

theorem end_marker_incomplete_fails_witness :
    (mayhemFinalize encDigest [(0, [1])] 2 (encDigest [1, 2])).1 =
      Verdict.checksumMismatch := by
  have hstored : ∀ i v, bufGet [(0, [1])] i = some v →
      ([[1], [2]] : List Bytes).get? i = some v := by
    intro i v hv
    simp only [bufGet] at hv
    split at hv
    · next h0 =>
      cases hv
      simp [← h0]
    · cases hv
  have h := (end_marker_incomplete_fails encDigest encDigest_injective
    [[1], [2]] (by decide) [(0, [1])] hstored 1 (by decide) (by decide)).1
  simpa using h

/-- Claim C6 counterexample: in the Multi-Client-Mayhem client a whole-file
digest mismatch ends in CHECKSUM_MISMATCH but the reassembled file is NOT
written to disk — the write happens only in the success branch
(`The-Multi-Client-Mayhem/client.py:140-147`) — refuting the part of the
claim that says the received file is saved and flagged on mismatch. -/
theorem mismatch_file_not_saved :
    mayhemFinalize lenDigest [(0, [1])] 1 999 =
      (Verdict.checksumMismatch, none) := by decide

/-- Claim C6 (amended): a completed reassembly whose recomputed whole-file
digest differs from the declared digest is never reported as success: the
Mayhem client ends in the terminal CHECKSUM_MISMATCH state and saves
nothing, while the first_task client saves the received file before
verification and then flags the mismatch by retrying or failing — in
neither variant is the transfer silently treated as correct. -/
theorem whole_digest_mismatch_failed (digest : Bytes → Nat) (buf : Buffer)
    (total sc rc mr : Nat)
    (h1 : digest (reassemble buf total) ≠ sc)
    (h2 : digest (assembleSorted buf) ≠ sc) :
    mayhemFinalize digest buf total sc = (Verdict.checksumMismatch, none) ∧
    (firstTaskFinalize digest buf sc rc mr).1 ≠ FTOutcome.accepted ∧
    (firstTaskFinalize digest buf sc rc mr).2 = some (assembleSorted buf) := by
  refine ⟨by simp [mayhemFinalize, h1], ?_, ?_⟩
  · simp only [firstTaskFinalize]
    rw [if_neg h2]
    by_cases h : rc < mr
    · rw [if_pos h]
      simp
    · rw [if_neg h]
      simp
  · simp only [firstTaskFinalize]
    rw [if_neg h2]
    by_cases h : rc < mr
    · rw [if_pos h]
    · rw [if_neg h]

theorem whole_digest_mismatch_failed_witness :
    mayhemFinalize lenDigest [(0, [2])] 1 999 =
      (Verdict.checksumMismatch, none) :=
  (whole_digest_mismatch_failed lenDigest [(0, [2])] 1 999 0 3
    (by decide) (by decide)).1

/-- Claim C7 (code bug): an undecodable chunk payload makes the Mayhem
client reply RETRANSMIT:LAST without touching its buffer or crashing, but
the Mayhem server parses the sequence field of every RETRANSMIT ack with
int(), which raises ValueError on the literal LAST and aborts the session
— so the malformed-frame path does crash a peer, contrary to the claim
(a numeric RETRANSMIT ack, by contrast, parses fine). -/
theorem retransmit_last_crashes_server :
    onFrame lenDigest [] none = ([], ClientReply.retransmitLast) ∧
    replyWire ClientReply.retransmitLast = ("RETRANSMIT:LAST".toList) ∧
    serverHandleAck ("RETRANSMIT:LAST".toList) = ServerAckResult.crash ∧
    serverHandleAck (replyWire (ClientReply.retransmit 7)) =
      ServerAckResult.retransmit 7 := by
  refine ⟨rfl, rfl, ?_, ?_⟩
  · decide
  · decide

/-- Claim C8: the retransmission exchange is bounded — the Mayhem client's
chunk-receive loop executes at most 2 × total_chunk_count iterations (its
`for _ in range(num_chunks * 2)` budget), and the first_task retry loop
with budget B performs at most B + 1 attempts in total (at most B
retransmission rounds beyond the first attempt); exhausting the budget
surfaces as a failed result rather than an infinite loop. -/
theorem bounded_retries (digest : Bytes → Nat) (total : Nat)
    (stream : List InMsg) (buf : Buffer) (fails : Nat → Bool)
    (maxRetries : Nat) :
    (recvChunksLoop digest total (2 * total) stream buf).2 ≤ 2 * total ∧
    (uploadRetry fails maxRetries).2 ≤ maxRetries + 1 ∧
    ((∀ i, fails i = true) → (uploadRetry fails maxRetries).1 = false) := by
  refine ⟨recvChunksLoop_bound digest total (2 * total) stream buf, ?_, ?_⟩
  · have h := uploadRetryAux_attempts fails maxRetries 0
    simpa [uploadRetry] using h
  · intro hall
    have h := uploadRetryAux_all_fail fails hall maxRetries 0
    simpa [uploadRetry] using h

theorem bounded_retries_witness :
    (uploadRetry (fun _ => true) 2).1 = false ∧
    (uploadRetry (fun _ => true) 2).2 ≤ 3 :=
  ⟨(bounded_retries lenDigest 0 [] [] (fun _ => true) 2).2.2 (fun _ => rfl),
   (bounded_retries lenDigest 0 [] [] (fun _ => true) 2).2.1⟩

/-- Claim C9 counterexample: a stream that ends after delivering the single
prefix byte 0x00 makes the client's readFrame return an empty frame — the
truncated prefix is misread as declaring length 0 — instead of failing
with ConnectionClosed, and the server's readFrame does the same on a
stream that ends before any byte at all. -/
theorem truncated_prefix_no_error :
    receiveResponseClient [0] = Except.ok [] ∧
    receiveRequestServer [] = Except.ok [] := by
  constructor
  · simp [receiveResponseClient, fromBytesBE, recvLoop]
  · simp [receiveRequestServer, fromBytesBE, recvLoop]

/-- Claim C9 (amended): when the stream delivers the full 4-byte big-endian
length prefix, readFrame (both variants) either returns exactly the
declared number of payload bytes, looping over partial reads, or fails
with ConnectionClosed if the stream ends before the full payload arrives;
the client variant additionally fails with ConnectionClosed when the
stream ends before any prefix byte.  A stream ending partway through the
prefix is instead misread as a shorter length, and the server variant
never signals ConnectionClosed during the prefix read (see the
counterexample). -/
theorem readFrame_spec (s : Bytes) (h4 : 4 ≤ s.length) :
    (fromBytesBE (s.take 4) ≤ (s.drop 4).length →
      receiveResponseClient s = .ok ((s.drop 4).take (fromBytesBE (s.take 4))) ∧
      receiveRequestServer s = .ok ((s.drop 4).take (fromBytesBE (s.take 4))) ∧
      ((s.drop 4).take (fromBytesBE (s.take 4))).length = fromBytesBE (s.take 4)) ∧
    ((s.drop 4).length < fromBytesBE (s.take 4) →
      receiveResponseClient s = .error .connectionClosed ∧
      receiveRequestServer s = .error .connectionClosed) ∧
    receiveResponseClient [] = .error .connectionClosed := by
  have hne : s.take 4 ≠ [] := by
    intro he
    have h0 := congrArg List.length he
    rw [List.length_take] at h0
    simp only [List.length_nil] at h0
    omega
  have hclient :
      receiveResponseClient s = recvLoop (fromBytesBE (s.take 4)) (s.drop 4) := by
    simp only [receiveResponseClient]
    rw [if_neg hne]
  refine ⟨?_, ?_, ?_⟩
  · intro hle
    refine ⟨?_, ?_, ?_⟩
    · rw [hclient]
      exact recvLoop_ok _ _ hle
    · unfold receiveRequestServer
      exact recvLoop_ok _ _ hle
    · rw [List.length_take]
      omega
  · intro hgt
    constructor
    · rw [hclient]
      exact recvLoop_closed _ _ hgt
    · unfold receiveRequestServer
      exact recvLoop_closed _ _ hgt
  · simp [receiveResponseClient]

theorem readFrame_spec_witness :
    receiveResponseClient [0, 0, 0, 2, 9, 9] = Except.ok [9, 9] ∧
    receiveRequestServer [0, 0, 0, 5, 1] = Except.error FrameErr.connectionClosed := by
  constructor
  · have h := ((readFrame_spec [0, 0, 0, 2, 9, 9] (by decide)).1 (by decide)).1
    simpa [fromBytesBE] using h
  · have h := ((readFrame_spec [0, 0, 0, 5, 1] (by decide)).2.1 (by decide)).2
    exact h

/-- Claim C10: the latin1 text transport of the upload body is lossless on
byte strings — decoding byte values to code points and re-encoding them is
the identity — so the file the server writes from the client's
latin1-decoded upload request is byte-for-byte identical to the client's
original file bytes. -/
theorem latin1_roundtrip (b : Bytes) (h : ∀ x ∈ b, x < 256) :
    serverSavedUpload b = some b ∧ latin1Encode (latin1Decode b) = some b := by
  have he : latin1Encode (latin1Decode b) = some b := by
    unfold latin1Encode latin1Decode
    rw [if_pos h]
  exact ⟨he, he⟩

theorem latin1_roundtrip_witness :
    serverSavedUpload [0, 127, 255] = some [0, 127, 255] :=
  (latin1_roundtrip [0, 127, 255] (by decide)).1
